import Mathlib

/-
  Verification of the caribou migration engine (src/caribou/migrate.py).

  The embedding models:
  - Python values that flow into version comparisons (`PyVal`): strings,
    integers and `None`.  Python 3 comparisons between distinct types raise
    `TypeError`; this is modelled by `pyLE` / `pyLT` returning an error.
  - A sqlite connection as a pair of database images: the `committed` image
    (what is durable on disk) and the `current` image (the connection's view,
    including uncommitted writes).  `commit` publishes `current`,
    `rollback` restores `committed`.  Closing a connection discards
    uncommitted writes, so the persisted file after a run is `committed`.
  - A database image as the version-marker table (`Option String`: `none`
    when the `migration_version` table does not exist, `some v` when it holds
    the row `v`) together with an abstract schema state `σ` that the
    migration actions act on.
  - A migration unit (`Mig`) as its version string plus its upgrade and
    downgrade actions.  An action transforms the schema or fails; a failing
    action may already have executed some statements, so its error carries
    the schema state at the point of failure.

  The engine functions `dbUpgrade`, `dbDowngrade` (Database.upgrade /
  Database.downgrade) and `topUpgrade`, `topDowngrade` (the module-level
  upgrade / downgrade entry points) are translated line by line from
  src/caribou/migrate.py.
-/

namespace Caribou

/-- Python values that participate in version handling. -/
inductive PyVal : Type where
  | none : PyVal
  | int : Int → PyVal
  | str : String → PyVal
deriving DecidableEq, Repr

/-- Exceptions raised by the engine.  `unknownVersion` is the
`Error("No migration with version %s exists.")` raised by
`_assert_migration_exists`; `notVersionControlled` is the
`Error("The database %s is not version controlled.")` of the module-level
`downgrade`; `typeError` is Python's `TypeError` from an order comparison
between incompatible types; `actionFailure v` is an exception escaping the
migration action of the unit with version `v`. -/
inductive Err : Type where
  | unknownVersion : Err
  | notVersionControlled : Err
  | typeError : Err
  | actionFailure : String → Err
deriving DecidableEq, Repr

/-- Python `<=` (TypeError on mixed str/int/None operands, as in Python 3). -/
def pyLE : PyVal → PyVal → Except Err Bool
  | .str a, .str b => .ok (decide (a ≤ b))
  | .int a, .int b => .ok (decide (a ≤ b))
  | _, _ => .error .typeError

/-- Python `<` (TypeError on mixed operands). -/
def pyLT : PyVal → PyVal → Except Err Bool
  | .str a, .str b => .ok (decide (a < b))
  | .int a, .int b => .ok (decide (a < b))
  | _, _ => .error .typeError

/-- Python `>`, defined by argument swap as in Python. -/
def pyGT (a b : PyVal) : Except Err Bool := pyLT b a

/-- Python truthiness of the values used as target versions. -/
def pyTruthy : PyVal → Bool
  | .none => false
  | .int n => decide (n ≠ 0)
  | .str s => decide (s ≠ "")

/-- Python `==` between the values used as versions (cross-type is False,
never an error). -/
def pyEq : PyVal → PyVal → Bool
  | .none, .none => true
  | .int a, .int b => decide (a = b)
  | .str a, .str b => decide (a = b)
  | _, _ => false

/-- sqlite TEXT-affinity conversion applied when a value is stored into the
`version text` column: integers are stored as their decimal text.  The
engine only ever stores strings and the integer `0`. -/
def pyToText : PyVal → String
  | .int n => toString n
  | .str s => s
  | .none => "None"

/-- One image of the database: the `migration_version` table (absent, or
holding a single row) and the abstract schema state the migration actions
operate on. -/
structure DBFile (σ : Type) : Type where
  marker : Option String
  schema : σ
deriving DecidableEq, Repr

/-- A sqlite connection: the durable image and the connection's current
(uncommitted) view. -/
structure Conn (σ : Type) : Type where
  committed : DBFile σ
  current : DBFile σ
deriving DecidableEq, Repr

/-- A connection with no pending writes. -/
def cleanConn {σ : Type} (m : Option String) (s : σ) : Conn σ :=
  ⟨⟨m, s⟩, ⟨m, s⟩⟩

/-- `conn.commit()`: the current view becomes durable. -/
def commit {σ : Type} (c : Conn σ) : Conn σ := ⟨c.current, c.current⟩

/-- `conn.rollback()`: pending writes are discarded. -/
def rollback {σ : Type} (c : Conn σ) : Conn σ := ⟨c.committed, c.committed⟩

/-- Execute a write against the schema part of the connection's view. -/
def setSchema {σ : Type} (c : Conn σ) (s : σ) : Conn σ :=
  { c with current := { c.current with schema := s } }

/-- Execute a write against the version marker in the connection's view. -/
def setMarker {σ : Type} (c : Conn σ) (m : Option String) : Conn σ :=
  { c with current := { c.current with marker := m } }

/-- Closing the connection: uncommitted writes are lost; the file on disk
is the committed image. -/
def closeDB {σ : Type} (c : Conn σ) : DBFile σ := c.committed

/-- One migration unit: its version (the result of `get_version`, which the
constructor has validated) and its two opaque actions.  An action either
returns the new schema state or fails; the error payload is the schema state
at the moment the exception was raised (statements executed before the
failure stay pending on the connection). -/
structure Mig (σ : Type) : Type where
  version : String
  up : σ → Except σ σ
  down : σ → Except σ σ

/-- `Database.is_version_controlled`: does the marker table exist (as seen
through the connection)? -/
def isVersionControlled {σ : Type} (c : Conn σ) : Bool :=
  c.current.marker.isSome

/-- `Database.get_version`: `None` when not version-controlled, else the
stored value. -/
def readVersion {σ : Type} (c : Conn σ) : PyVal :=
  match c.current.marker with
  | Option.none => PyVal.none
  | Option.some s => PyVal.str s

/-- `Database.update_version`: `update migration_version set version = :1`
inside `with transaction(conn)` — the write goes to the current view and is
then committed (the write itself cannot fail in this model, so the
rollback branch of `transaction` is not exercised here). -/
def updateVersion {σ : Type} (c : Conn σ) (v : PyVal) : Conn σ :=
  commit (setMarker c (Option.some (pyToText v)))

/-- `Database.initialize_version_control`: create the marker table and
insert the row `0` (stored as text `"0"`), in one committed transaction. -/
def initializeVersionControl {σ : Type} (c : Conn σ) : Conn σ :=
  commit (setMarker c (Option.some "0"))

/-- `_assert_migration_exists` membership test:
`version not in (m.get_version() for m in migrations)`. -/
def migExists {σ : Type} (ms : List (Mig σ)) (v : PyVal) : Bool :=
  ms.any (fun m => pyEq v (.str m.version))

/-- Stable insertion (ascending by version) matching Python's stable sort. -/
def insertAsc {σ : Type} (a : Mig σ) : List (Mig σ) → List (Mig σ)
  | [] => [a]
  | b :: bs => if b.version < a.version then b :: insertAsc a bs else a :: b :: bs

/-- `migrations.sort(key=lambda x: x.get_version())`. -/
def sortAsc {σ : Type} : List (Mig σ) → List (Mig σ)
  | [] => []
  | x :: xs => insertAsc x (sortAsc xs)

/-- Stable insertion (descending by version). -/
def insertDesc {σ : Type} (a : Mig σ) : List (Mig σ) → List (Mig σ)
  | [] => [a]
  | b :: bs => if a.version < b.version then b :: insertDesc a bs else a :: b :: bs

/-- `migrations.sort(key=lambda x: x.get_version(), reverse=True)`. -/
def sortDesc {σ : Type} : List (Mig σ) → List (Mig σ)
  | [] => []
  | x :: xs => insertDesc x (sortDesc xs)

/-- The `for migration in migrations` loop of `Database.upgrade`.
`dbv` is the `database_version` snapshot read before the loop. -/
def upgradeLoop {σ : Type} (dbv tgt : PyVal) :
    Conn σ → List (Mig σ) → Except (Err × Conn σ) (Conn σ)
  | c, [] => .ok c
  | c, m :: ms =>
    match pyLE (.str m.version) dbv with
    | .error e => .error (e, c)
    | .ok true => upgradeLoop dbv tgt c ms
    | .ok false =>
      match (if pyTruthy tgt then pyGT (.str m.version) tgt else .ok false) with
      | .error e => .error (e, c)
      | .ok true => .ok c
      | .ok false =>
        match m.up c.current.schema with
        | .error s => .error (.actionFailure m.version, setSchema c s)
        | .ok s => upgradeLoop dbv tgt (updateVersion (setSchema c s) (.str m.version)) ms

/-- `Database.upgrade`. -/
def dbUpgrade {σ : Type} (c : Conn σ) (migs : List (Mig σ)) (tgt : PyVal) :
    Except (Err × Conn σ) (Conn σ) :=
  if pyTruthy tgt ∧ migExists migs tgt = false then .error (.unknownVersion, c)
  else upgradeLoop (readVersion c) tgt c (sortAsc migs)

/-- The value `next_version` computed inside `Database.downgrade`'s loop:
the version of the next unit in the (descending) list, or the integer `0`
when the reverted unit was the last (`next_version = 0`). -/
def nextVersionPy {σ : Type} : List (Mig σ) → PyVal
  | [] => PyVal.int 0
  | n :: _ => PyVal.str n.version

/-- The `for i, migration in enumerate(migrations)` loop of
`Database.downgrade`.  The version written after a successful step is
`nextVersionPy` of the remaining list. -/
def downgradeLoop {σ : Type} (dbv tgt : PyVal) :
    Conn σ → List (Mig σ) → Except (Err × Conn σ) (Conn σ)
  | c, [] => .ok c
  | c, m :: ms =>
    match pyGT (.str m.version) dbv with
    | .error e => .error (e, c)
    | .ok true => downgradeLoop dbv tgt c ms
    | .ok false =>
      match pyLE (.str m.version) tgt with
      | .error e => .error (e, c)
      | .ok true => .ok c
      | .ok false =>
        match m.down c.current.schema with
        | .error s => .error (.actionFailure m.version, setSchema c s)
        | .ok s => downgradeLoop dbv tgt (updateVersion (setSchema c s) (nextVersionPy ms)) ms

/-- `Database.downgrade`. -/
def dbDowngrade {σ : Type} (c : Conn σ) (migs : List (Mig σ)) (tgt : PyVal) :
    Except (Err × Conn σ) (Conn σ) :=
  if ¬(pyEq tgt (.int 0) = true ∨ pyEq tgt (.str "0") = true) ∧ migExists migs tgt = false then
    .error (.unknownVersion, c)
  else downgradeLoop (readVersion c) tgt c (sortDesc migs)

/-- Module-level `upgrade(db_url, migration_dir, version=None)`: initialize
version control when absent, then `Database.upgrade` on the loaded set
(migration loading is the out-of-scope collaborator; the set is a
parameter here). -/
def topUpgrade {σ : Type} (c : Conn σ) (migs : List (Mig σ)) (tgt : PyVal) :
    Except (Err × Conn σ) (Conn σ) :=
  let c1 := if isVersionControlled c then c else initializeVersionControl c
  dbUpgrade c1 migs tgt

/-- Module-level `downgrade(db_url, migration_dir, version)`: require the
database to be version-controlled, then `Database.downgrade`. -/
def topDowngrade {σ : Type} (c : Conn σ) (migs : List (Mig σ)) (tgt : PyVal) :
    Except (Err × Conn σ) (Conn σ) :=
  if isVersionControlled c then dbDowngrade c migs tgt
  else .error (.notVersionControlled, c)

/-- Observable migration-action events, used to instantiate the abstract
schema state: each action appends the record of its own invocation. -/
inductive Ev : Type where
  | up : String → Ev
  | down : String → Ev
deriving DecidableEq, Repr

/-- A migration unit whose actions always succeed and record their
invocation. -/
def logMig (v : String) : Mig (List Ev) :=
  ⟨v, fun s => .ok (s ++ [Ev.up v]), fun s => .ok (s ++ [Ev.down v])⟩

/-- A migration unit whose actions execute some statements and then raise:
the recorded event is pending on the connection when the exception
escapes. -/
def failMig (v : String) : Mig (List Ev) :=
  ⟨v, fun s => .error (s ++ [Ev.up v]), fun s => .error (s ++ [Ev.down v])⟩

/-- The exception carried by a result, if any. -/
def errOf {σ : Type} : Except (Err × Conn σ) (Conn σ) → Option Err
  | .error (e, _) => Option.some e
  | .ok _ => Option.none

/-- The connection a run ends with (the error state when an exception
propagated to the caller). -/
def resultConn {σ : Type} : Except (Err × Conn σ) (Conn σ) → Conn σ
  | .error (_, c) => c
  | .ok c => c

/-- Modelled from the spec: helper of the version identifier parser —
strip leading underscore separator characters from the name remainder
(spec 4.1: "with any leading separator characters (underscore) stripped
repeatedly").  The parser `_parse_migration_name` is imported by the
repository's tests from `caribou.migrate` but is missing from the source
under src/, so it is modelled from spec section 4.1.  Identifiers are
modelled as character lists. -/
def stripUnderscores : List Char → List Char
  | '_' :: cs => stripUnderscores cs
  | cs => cs

/-- Modelled from the spec: keep only the final dot-separated segment of
the identifier (spec 4.1: "Strip any path/namespace prefix, keep only the
final segment"). -/
def lastSeg : List Char → List Char
  | [] => []
  | c :: cs => if '.' ∈ cs then lastSeg cs else if c = '.' then cs else c :: cs

/-- Modelled from the spec: drop the optional single leading marker
character 'v'/'V' from the final segment (spec 4.1). -/
def parseCore (seg : List Char) : List Char :=
  match seg with
  | [] => []
  | c :: cs => if c = 'v' ∨ c = 'V' then cs else seg

/-- Modelled from the spec: the version identifier parser
`_parse_migration_name`, which is missing from src/ (only its tests are
present).  Spec 4.1: take the final segment; an optional single leading
marker character 'v'/'V' followed by 14 ASCII digits yields those digits as
the version and the remainder (leading underscores stripped) as the name;
otherwise the null pair.  Pure and total by construction. -/
def parseMigrationName (s : List Char) : Option (List Char) × Option (List Char) :=
  if 14 ≤ (parseCore (lastSeg s)).length ∧ ((parseCore (lastSeg s)).take 14).all Char.isDigit then
    (Option.some ((parseCore (lastSeg s)).take 14),
      Option.some (stripUnderscores ((parseCore (lastSeg s)).drop 14)))
  else (Option.none, Option.none)

/-- Upgrade events of a version list, in order. -/
def ups (vs : List String) : List Ev := vs.map Ev.up

/-- Downgrade events of a version list, in order. -/
def downs (vs : List String) : List Ev := vs.map Ev.down

/-- The marker value after successively recording each version of `app`
starting from `m0`: `m0` when nothing was applied, else the last applied
version. -/
def lastMarker : List String → Option String → Option String
  | [], m0 => m0
  | v :: vs, _ => lastMarker vs (Option.some v)

/-- The stored text of `nextVersionPy` for a version list: the head
version, or `"0"` for the empty list. -/
def nextVersion : List String → String
  | [] => "0"
  | n :: _ => n

/-- The marker value at the end of a downgrade walk over the strictly
descending version list `vs` with database version `dbv` and target `t`:
unchanged when no unit is reverted; otherwise the version of the unit
following the last reverted one in the list — the first remaining unit at
or below the target — or `"0"` (the stored integer `0`) when no unit
remains below the last reverted one. -/
def downMarker (vs : List String) (dbv t : String) (m0 : Option String) : Option String :=
  if vs.filter (fun v => decide (v ≤ dbv) && decide (t < v)) = [] then m0
  else Option.some (nextVersion (vs.filter (fun v => decide (v ≤ t))))

/-- An optional target version as the Python value passed to the engine. -/
def toPyTarget : Option String → PyVal
  | Option.none => PyVal.none
  | Option.some t => PyVal.str t

/-- The upper bound a target imposes on an upgrade over the version list
`vs`: the target itself, or the maximum version when no target is given. -/
def effTarget (vs : List String) : Option String → String
  | Option.none => vs.getLastD ""
  | Option.some t => t

/-- The version recorded by the last successful downgrade step before the
unit `w` fails: the starting marker when no unit was reverted, else `w`
itself — each successful step records the NEXT unit's version, and the
failing unit is the next unit after the reverted prefix. -/
def failDownMarker (us : List String) (w : String) (m0 : Option String) : Option String :=
  match us with
  | [] => m0
  | _ :: _ => Option.some w

theorem pyLE_error {a b : PyVal} {e : Err} (h : pyLE a b = .error e) : e = Err.typeError := by
  cases a <;> cases b <;> simp [pyLE] at h <;> exact h.symm

theorem pyLT_error {a b : PyVal} {e : Err} (h : pyLT a b = .error e) : e = Err.typeError := by
  cases a <;> cases b <;> simp [pyLT] at h <;> exact h.symm

theorem sortAsc_eq_self {σ : Type} {l : List (Mig σ)}
    (h : l.Pairwise (fun m n => m.version ≤ n.version)) : sortAsc l = l := by
  induction l with
  | nil => rfl
  | cons x xs ih =>
    rw [sortAsc, ih (List.Pairwise.of_cons h)]
    cases xs with
    | nil => rfl
    | cons b bs =>
      have hxb : x.version ≤ b.version := (List.pairwise_cons.mp h).1 b (by simp)
      simp [insertAsc, not_lt.mpr hxb]

theorem sortDesc_eq_self {σ : Type} {l : List (Mig σ)}
    (h : l.Pairwise (fun m n => n.version ≤ m.version)) : sortDesc l = l := by
  induction l with
  | nil => rfl
  | cons x xs ih =>
    rw [sortDesc, ih (List.Pairwise.of_cons h)]
    cases xs with
    | nil => rfl
    | cons b bs =>
      have hbx : b.version ≤ x.version := (List.pairwise_cons.mp h).1 b (by simp)
      simp [insertDesc, not_lt.mpr hbx]

theorem lastMarker_ne_nil (app : List String) (m0 : Option String) (h : app ≠ []) :
    lastMarker app m0 = Option.some (app.getLastD "") := by
  induction app generalizing m0 with
  | nil => exact absurd rfl h
  | cons v vs ih =>
    cases vs with
    | nil => rfl
    | cons w ws =>
      rw [lastMarker, ih (Option.some v) (by simp)]
      simp [List.getLastD_cons]

theorem migExists_false {σ : Type} {migs : List (Mig σ)} {t : String}
    (h : ∀ m ∈ migs, m.version ≠ t) : migExists migs (.str t) = false := by
  simp only [migExists, List.any_eq_false]
  intro m hm
  simp [pyEq, (h m hm).symm]

theorem upgradeLoop_skip {σ : Type} (dbv tgt : PyVal) (c : Conn σ) (m : Mig σ)
    (ms : List (Mig σ)) (h : pyLE (.str m.version) dbv = .ok true) :
    upgradeLoop dbv tgt c (m :: ms) = upgradeLoop dbv tgt c ms := by
  simp [upgradeLoop, h]

theorem upgradeLoop_break {σ : Type} (dbv tgt : PyVal) (c : Conn σ) (m : Mig σ)
    (ms : List (Mig σ)) (h1 : pyLE (.str m.version) dbv = .ok false)
    (h2 : pyTruthy tgt = true) (h3 : pyGT (.str m.version) tgt = .ok true) :
    upgradeLoop dbv tgt c (m :: ms) = .ok c := by
  simp [upgradeLoop, h1, h2, h3]

theorem upgradeLoop_apply {σ : Type} (dbv tgt : PyVal) (c : Conn σ) (m : Mig σ)
    (ms : List (Mig σ)) (s : σ) (h1 : pyLE (.str m.version) dbv = .ok false)
    (h2 : (if pyTruthy tgt then pyGT (.str m.version) tgt else .ok false) = .ok false)
    (h3 : m.up c.current.schema = .ok s) :
    upgradeLoop dbv tgt c (m :: ms) =
      upgradeLoop dbv tgt (updateVersion (setSchema c s) (.str m.version)) ms := by
  simp [upgradeLoop, h1, h2, h3]

theorem upgradeLoop_fail {σ : Type} (dbv tgt : PyVal) (c : Conn σ) (m : Mig σ)
    (ms : List (Mig σ)) (s : σ) (h1 : pyLE (.str m.version) dbv = .ok false)
    (h2 : (if pyTruthy tgt then pyGT (.str m.version) tgt else .ok false) = .ok false)
    (h3 : m.up c.current.schema = .error s) :
    upgradeLoop dbv tgt c (m :: ms) = .error (.actionFailure m.version, setSchema c s) := by
  simp [upgradeLoop, h1, h2, h3]

theorem downgradeLoop_skip {σ : Type} (dbv tgt : PyVal) (c : Conn σ) (m : Mig σ)
    (ms : List (Mig σ)) (h : pyGT (.str m.version) dbv = .ok true) :
    downgradeLoop dbv tgt c (m :: ms) = downgradeLoop dbv tgt c ms := by
  simp [downgradeLoop, h]

theorem downgradeLoop_break {σ : Type} (dbv tgt : PyVal) (c : Conn σ) (m : Mig σ)
    (ms : List (Mig σ)) (h1 : pyGT (.str m.version) dbv = .ok false)
    (h2 : pyLE (.str m.version) tgt = .ok true) :
    downgradeLoop dbv tgt c (m :: ms) = .ok c := by
  simp [downgradeLoop, h1, h2]

theorem downgradeLoop_apply {σ : Type} (dbv tgt : PyVal) (c : Conn σ) (m : Mig σ)
    (ms : List (Mig σ)) (s : σ) (h1 : pyGT (.str m.version) dbv = .ok false)
    (h2 : pyLE (.str m.version) tgt = .ok false)
    (h3 : m.down c.current.schema = .ok s) :
    downgradeLoop dbv tgt c (m :: ms) =
      downgradeLoop dbv tgt (updateVersion (setSchema c s) (nextVersionPy ms)) ms := by
  simp [downgradeLoop, h1, h2, h3]

theorem downgradeLoop_type_error {σ : Type} (dbv tgt : PyVal) (c : Conn σ) (m : Mig σ)
    (ms : List (Mig σ)) (h1 : pyGT (.str m.version) dbv = .ok false)
    (h2 : pyLE (.str m.version) tgt = .error Err.typeError) :
    downgradeLoop dbv tgt c (m :: ms) = .error (.typeError, c) := by
  simp [downgradeLoop, h1, h2]

theorem downgradeLoop_fail_step {σ : Type} (dbv tgt : PyVal) (c : Conn σ) (m : Mig σ)
    (ms : List (Mig σ)) (s : σ) (h1 : pyGT (.str m.version) dbv = .ok false)
    (h2 : pyLE (.str m.version) tgt = .ok false)
    (h3 : m.down c.current.schema = .error s) :
    downgradeLoop dbv tgt c (m :: ms) = .error (.actionFailure m.version, setSchema c s) := by
  simp [downgradeLoop, h1, h2, h3]

theorem updateVersion_clean {σ : Type} (m0 : Option String) (s0 s : σ) (v : PyVal) :
    updateVersion (setSchema (cleanConn m0 s0) s) v = cleanConn (Option.some (pyToText v)) s := rfl

theorem sortAsc_logMig (vs : List String) (hs : vs.Pairwise (· < ·)) :
    sortAsc (vs.map logMig) = vs.map logMig := by
  apply sortAsc_eq_self
  exact List.pairwise_map.mpr (hs.imp fun h => le_of_lt h)

theorem sortDesc_logMig (vs : List String) (hs : vs.Pairwise (· > ·)) :
    sortDesc (vs.map logMig) = vs.map logMig := by
  apply sortDesc_eq_self
  exact List.pairwise_map.mpr (hs.imp fun h => le_of_lt h)

theorem upgradeLoop_logMig_none (dbv : String) (vs : List String)
    (hs : vs.Pairwise (· < ·)) (m0 : Option String) (s0 : List Ev) :
    upgradeLoop (.str dbv) PyVal.none (cleanConn m0 s0) (vs.map logMig) =
      .ok (cleanConn (lastMarker (vs.filter (fun v => decide (dbv < v))) m0)
        (s0 ++ ups (vs.filter (fun v => decide (dbv < v))))) := by
  induction vs generalizing m0 s0 with
  | nil => simp [upgradeLoop, ups, lastMarker]
  | cons v vs ih =>
    have htail := List.Pairwise.of_cons hs
    rcases le_or_lt v dbv with hle | hlt
    · have hf : List.filter (fun w => decide (dbv < w)) (v :: vs) =
          List.filter (fun w => decide (dbv < w)) vs := by
        rw [List.filter_cons, if_neg (by simp [not_lt.mpr hle])]
      rw [List.map_cons,
        upgradeLoop_skip (.str dbv) PyVal.none (cleanConn m0 s0) (logMig v) (vs.map logMig)
          (by simp [pyLE, logMig, hle]),
        ih htail m0 s0, hf]
    · have hf : List.filter (fun w => decide (dbv < w)) (v :: vs) =
          v :: List.filter (fun w => decide (dbv < w)) vs := by
        rw [List.filter_cons, if_pos (by simp [hlt])]
      rw [List.map_cons,
        upgradeLoop_apply (.str dbv) PyVal.none (cleanConn m0 s0) (logMig v) (vs.map logMig)
          (s0 ++ [Ev.up v]) (by simp [pyLE, logMig, not_le.mpr hlt]) rfl rfl,
        updateVersion_clean]
      rw [show (logMig v).version = v from rfl, show pyToText (PyVal.str v) = v from rfl]
      rw [ih htail (Option.some v) (s0 ++ [Ev.up v]), hf]
      simp only [lastMarker, ups, List.map_cons, List.append_assoc, List.singleton_append]

theorem upgradeLoop_logMig_str (dbv t : String) (ht : t ≠ "") (vs : List String)
    (hs : vs.Pairwise (· < ·)) (m0 : Option String) (s0 : List Ev) :
    upgradeLoop (.str dbv) (.str t) (cleanConn m0 s0) (vs.map logMig) =
      .ok (cleanConn (lastMarker (vs.filter (fun v => decide (dbv < v) && decide (v ≤ t))) m0)
        (s0 ++ ups (vs.filter (fun v => decide (dbv < v) && decide (v ≤ t))))) := by
  induction vs generalizing m0 s0 with
  | nil => simp [upgradeLoop, ups, lastMarker]
  | cons v vs ih =>
    have htail := List.Pairwise.of_cons hs
    rcases le_or_lt v dbv with hle | hlt
    · have hf : List.filter (fun w => decide (dbv < w) && decide (w ≤ t)) (v :: vs) =
          List.filter (fun w => decide (dbv < w) && decide (w ≤ t)) vs := by
        rw [List.filter_cons, if_neg (by simp [not_lt.mpr hle])]
      rw [List.map_cons,
        upgradeLoop_skip (.str dbv) (.str t) (cleanConn m0 s0) (logMig v) (vs.map logMig)
          (by simp [pyLE, logMig, hle]),
        ih htail m0 s0, hf]
    · rcases le_or_lt v t with hvt | htv
      · have hf : List.filter (fun w => decide (dbv < w) && decide (w ≤ t)) (v :: vs) =
            v :: List.filter (fun w => decide (dbv < w) && decide (w ≤ t)) vs := by
          rw [List.filter_cons, if_pos (by simp [hlt, hvt])]
        rw [List.map_cons,
          upgradeLoop_apply (.str dbv) (.str t) (cleanConn m0 s0) (logMig v) (vs.map logMig)
            (s0 ++ [Ev.up v]) (by simp [pyLE, logMig, not_le.mpr hlt])
            (by simp [pyTruthy, ht, pyGT, pyLT, logMig, not_lt.mpr hvt]) rfl,
          updateVersion_clean]
        rw [show (logMig v).version = v from rfl, show pyToText (PyVal.str v) = v from rfl]
        rw [ih htail (Option.some v) (s0 ++ [Ev.up v]), hf]
        simp only [lastMarker, ups, List.map_cons, List.append_assoc, List.singleton_append]
      · have hfil : List.filter (fun w => decide (dbv < w) && decide (w ≤ t)) (v :: vs) = [] := by
          rw [List.filter_cons, if_neg (by simp [not_le.mpr htv])]
          rw [List.filter_eq_nil_iff]
          intro w hw
          have hvw : v < w := (List.pairwise_cons.mp hs).1 w hw
          simp [not_le.mpr (lt_trans htv hvw)]
        rw [List.map_cons,
          upgradeLoop_break (.str dbv) (.str t) (cleanConn m0 s0) (logMig v) (vs.map logMig)
            (by simp [pyLE, logMig, not_le.mpr hlt]) (by simp [pyTruthy, ht])
            (by simp [pyGT, pyLT, logMig, htv]),
          hfil, lastMarker, ups, List.map_nil, List.append_nil]

theorem downgradeLoop_logMig (dbv t : String) (vs : List String)
    (hs : vs.Pairwise (· > ·)) (m0 : Option String) (s0 : List Ev) :
    downgradeLoop (.str dbv) (.str t) (cleanConn m0 s0) (vs.map logMig) =
      .ok (cleanConn (downMarker vs dbv t m0)
        (s0 ++ downs (vs.filter (fun v => decide (v ≤ dbv) && decide (t < v))))) := by
  induction vs generalizing m0 s0 with
  | nil => simp [downgradeLoop, downs, downMarker]
  | cons v vs ih =>
    have htail := List.Pairwise.of_cons hs
    have hvw : ∀ w ∈ vs, w < v := fun w hw => (List.pairwise_cons.mp hs).1 w hw
    rcases lt_or_le dbv v with hgt | hle
    · -- v > database version: unit skipped
      have hBcons : List.filter (fun w => decide (w ≤ dbv) && decide (t < w)) (v :: vs) =
          List.filter (fun w => decide (w ≤ dbv) && decide (t < w)) vs := by
        rw [List.filter_cons, if_neg (by simp [not_le.mpr hgt])]
      have hdm : downMarker (v :: vs) dbv t m0 = downMarker vs dbv t m0 := by
        simp only [downMarker]
        rw [hBcons]
        by_cases hB : List.filter (fun w => decide (w ≤ dbv) && decide (t < w)) vs = []
        · rw [if_pos hB, if_pos hB]
        · rw [if_neg hB, if_neg hB]
          obtain ⟨w, hwf⟩ := List.exists_mem_of_ne_nil _ hB
          obtain ⟨hwmem, hwp⟩ := List.mem_filter.mp hwf
          have htw : t < w := by
            have := of_decide_eq_true (Bool.and_elim_right hwp)
            exact this
          have hvt : t < v := lt_trans htw (hvw w hwmem)
          rw [List.filter_cons, if_neg (by simp [not_le.mpr hvt])]
      rw [List.map_cons,
        downgradeLoop_skip (.str dbv) (.str t) (cleanConn m0 s0) (logMig v) (vs.map logMig)
          (by simp [pyGT, pyLT, logMig, hgt]),
        ih htail m0 s0, hBcons, hdm]
    · rcases le_or_lt v t with hvt | htv
      · -- v ≤ target: loop breaks
        have hB : List.filter (fun w => decide (w ≤ dbv) && decide (t < w)) (v :: vs) = [] := by
          rw [List.filter_cons, if_neg (by simp [not_lt.mpr hvt])]
          rw [List.filter_eq_nil_iff]
          intro w hw
          simp [not_lt.mpr (le_of_lt (lt_of_lt_of_le (hvw w hw) hvt))]
        have hdm : downMarker (v :: vs) dbv t m0 = m0 := by
          simp only [downMarker]
          rw [if_pos hB]
        rw [List.map_cons,
          downgradeLoop_break (.str dbv) (.str t) (cleanConn m0 s0) (logMig v) (vs.map logMig)
            (by simp [pyGT, pyLT, logMig, not_lt.mpr hle]) (by simp [pyLE, logMig, hvt]),
          hB, hdm, downs, List.map_nil, List.append_nil]
      · -- v ≤ database version and v > target: unit reverted
        have hBcons : List.filter (fun w => decide (w ≤ dbv) && decide (t < w)) (v :: vs) =
            v :: List.filter (fun w => decide (w ≤ dbv) && decide (t < w)) vs := by
          rw [List.filter_cons, if_pos (by simp [hle, htv])]
        have hCcons : List.filter (fun w => decide (w ≤ t)) (v :: vs) =
            List.filter (fun w => decide (w ≤ t)) vs := by
          rw [List.filter_cons, if_neg (by simp [not_le.mpr htv])]
        have hdm : downMarker (v :: vs) dbv t m0 =
            downMarker vs dbv t (Option.some (nextVersion vs)) := by
          simp only [downMarker]
          rw [hBcons, hCcons, if_neg (List.cons_ne_nil v _)]
          by_cases hB : List.filter (fun w => decide (w ≤ dbv) && decide (t < w)) vs = []
          · rw [if_pos hB]
            cases vs with
            | nil => rfl
            | cons n vs2 =>
              have hnv : n < v := hvw n (by simp)
              have hnd : n ≤ dbv := le_of_lt (lt_of_lt_of_le hnv hle)
              have hnt : n ≤ t := by
                by_contra hcon
                have hmem : n ∈ List.filter (fun w => decide (w ≤ dbv) && decide (t < w)) (n :: vs2) := by
                  rw [List.filter_cons, if_pos (by simp [hnd, not_le.mp hcon])]
                  simp
                rw [hB] at hmem
                exact absurd hmem (List.not_mem_nil n)
              rw [List.filter_cons, if_pos (by simp [hnt])]
              rfl
          · rw [if_neg hB]
        rw [List.map_cons,
          downgradeLoop_apply (.str dbv) (.str t) (cleanConn m0 s0) (logMig v) (vs.map logMig)
            (s0 ++ [Ev.down v]) (by simp [pyGT, pyLT, logMig, not_lt.mpr hle])
            (by simp [pyLE, logMig, not_le.mpr htv]) rfl,
          updateVersion_clean]
        have hnext : pyToText (nextVersionPy (vs.map logMig)) = nextVersion vs := by
          cases vs with
          | nil => rfl
          | cons n vs2 => rfl
        rw [hnext, ih htail (Option.some (nextVersion vs)) (s0 ++ [Ev.down v]), hdm, hBcons]
        simp only [downs, List.map_cons, List.append_assoc, List.singleton_append]

theorem downgradeLoop_no_unknown {σ : Type} (dbv tgt : PyVal) (c : Conn σ)
    (ms : List (Mig σ)) :
    errOf (downgradeLoop dbv tgt c ms) ≠ Option.some Err.unknownVersion := by
  induction ms generalizing c with
  | nil => simp [downgradeLoop, errOf]
  | cons m ms ih =>
    rcases hgt : pyGT (.str m.version) dbv with egt | bgt
    · have he := pyLT_error hgt
      simp [downgradeLoop, hgt, errOf, he]
    · cases bgt with
      | true =>
        rw [downgradeLoop_skip dbv tgt c m ms hgt]
        exact ih c
      | false =>
        rcases hle : pyLE (.str m.version) tgt with ele | ble
        · have he := pyLE_error hle
          simp [downgradeLoop, hgt, hle, errOf, he]
        · cases ble with
          | true =>
            rw [downgradeLoop_break dbv tgt c m ms hgt hle]
            simp [errOf]
          | false =>
            rcases hact : m.down c.current.schema with s | s
            · simp [downgradeLoop, hgt, hle, hact, errOf]
            · rw [downgradeLoop_apply dbv tgt c m ms s hgt hle hact]
              exact ih _

theorem getLastD_of_ne_nil {α : Type} {l : List α} (a b : α) (h : l ≠ []) :
    l.getLastD a = l.getLastD b := by
  cases l with
  | nil => exact absurd rfl h
  | cons x xs => rw [List.getLastD_cons, List.getLastD_cons]

theorem getLastD_cons_ne {α : Type} {l : List α} (a d : α) (h : l ≠ []) :
    (a :: l).getLastD d = l.getLastD d := by
  rw [List.getLastD_cons]
  exact getLastD_of_ne_nil a d h

theorem getLastD_mem {α : Type} {l : List α} (d : α) (h : l ≠ []) : l.getLastD d ∈ l := by
  induction l generalizing d with
  | nil => exact absurd rfl h
  | cons x xs ih =>
    rw [List.getLastD_cons]
    cases xs with
    | nil => simp [List.getLastD]
    | cons y ys => exact List.mem_cons_of_mem x (ih x (by simp))

theorem mem_le_getLastD {l : List String} (d : String)
    (hs : l.Pairwise (· < ·)) : ∀ v ∈ l, v ≤ l.getLastD d := by
  induction l generalizing d with
  | nil =>
    intro v hv
    exact absurd hv (List.not_mem_nil v)
  | cons x xs ih =>
    intro v hv
    rw [List.getLastD_cons]
    rcases List.mem_cons.mp hv with hvx | hvxs
    · subst hvx
      cases xs with
      | nil => simp [List.getLastD]
      | cons y ys =>
        have hxy : v < y := (List.pairwise_cons.mp hs).1 y (by simp)
        exact le_of_lt (lt_of_lt_of_le hxy (ih v (List.Pairwise.of_cons hs) y (by simp)))
    · exact ih x (List.Pairwise.of_cons hs) v hvxs

theorem filter_lt_getLast {vs : List String} {dbv : String}
    (hs : vs.Pairwise (· < ·)) (hne : vs ≠ []) (hlt : dbv < vs.getLastD "") :
    vs.filter (fun v => decide (dbv < v)) ≠ [] ∧
      (vs.filter (fun v => decide (dbv < v))).getLastD "" = vs.getLastD "" := by
  induction vs with
  | nil => exact absurd rfl hne
  | cons v vs ih =>
    cases vs with
    | nil =>
      rw [List.getLastD_cons] at hlt
      simp only [List.getLastD] at hlt
      rw [List.filter_cons, if_pos (by simp [hlt])]
      simp [List.getLastD]
    | cons w ws =>
      have hlt2 : dbv < (w :: ws).getLastD "" := by
        rw [List.getLastD_cons] at hlt
        rw [getLastD_of_ne_nil "" v (by simp)]
        exact hlt
      obtain ⟨hne2, heq2⟩ := ih (List.Pairwise.of_cons hs) (by simp) hlt2
      by_cases hdv : dbv < v
      · rw [List.filter_cons, if_pos (by simp [hdv])]
        refine ⟨by simp, ?_⟩
        rw [getLastD_cons_ne v "" hne2, getLastD_cons_ne v "" (List.cons_ne_nil w ws), heq2]
      · rw [List.filter_cons, if_neg (by simp [hdv])]
        refine ⟨hne2, ?_⟩
        rw [heq2, getLastD_cons_ne v "" (List.cons_ne_nil w ws)]

theorem filter_upto_target {vs : List String} {dbv t : String}
    (hs : vs.Pairwise (· < ·)) (hmem : t ∈ vs) (hdt : dbv < t) :
    vs.filter (fun v => decide (dbv < v) && decide (v ≤ t)) ≠ [] ∧
      (vs.filter (fun v => decide (dbv < v) && decide (v ≤ t))).getLastD "" = t := by
  induction vs with
  | nil => exact absurd hmem (List.not_mem_nil t)
  | cons v vs ih =>
    rcases List.mem_cons.mp hmem with htv | htvs
    · subst htv
      have hfil : vs.filter (fun w => decide (dbv < w) && decide (w ≤ t)) = [] := by
        rw [List.filter_eq_nil_iff]
        intro w hw
        have htw : t < w := (List.pairwise_cons.mp hs).1 w hw
        simp [not_le.mpr htw]
      rw [List.filter_cons, if_pos (by simp [hdt]), hfil]
      simp [List.getLastD]
    · have hvt : v < t := (List.pairwise_cons.mp hs).1 t htvs
      obtain ⟨hne2, heq2⟩ := ih (List.Pairwise.of_cons hs) htvs
      by_cases hdv : dbv < v
      · rw [List.filter_cons, if_pos (by simp [hdv, le_of_lt hvt])]
        refine ⟨by simp, ?_⟩
        rw [List.getLastD_cons, getLastD_of_ne_nil v "" hne2, heq2]
      · rw [List.filter_cons, if_neg (by simp [hdv])]
        exact ⟨hne2, heq2⟩

theorem migExists_logMig {vs : List String} {t : String} (hmem : t ∈ vs) :
    migExists (vs.map logMig) (.str t) = true := by
  simp only [migExists, List.any_eq_true]
  exact ⟨logMig t, List.mem_map_of_mem logMig hmem, by simp [pyEq, logMig]⟩

theorem dbUpgrade_clean_logMig_none (dbv : String) (vs : List String)
    (hs : vs.Pairwise (· < ·)) (s0 : List Ev) :
    dbUpgrade (cleanConn (Option.some dbv) s0) (vs.map logMig) PyVal.none =
      .ok (cleanConn (lastMarker (vs.filter (fun v => decide (dbv < v))) (Option.some dbv))
        (s0 ++ ups (vs.filter (fun v => decide (dbv < v))))) := by
  rw [dbUpgrade, if_neg (by simp [pyTruthy]), sortAsc_logMig vs hs]
  exact upgradeLoop_logMig_none dbv vs hs (Option.some dbv) s0

theorem dbUpgrade_clean_logMig_str (dbv t : String) (ht : t ≠ "") (vs : List String)
    (hs : vs.Pairwise (· < ·)) (hmem : t ∈ vs) (s0 : List Ev) :
    dbUpgrade (cleanConn (Option.some dbv) s0) (vs.map logMig) (.str t) =
      .ok (cleanConn
        (lastMarker (vs.filter (fun v => decide (dbv < v) && decide (v ≤ t))) (Option.some dbv))
        (s0 ++ ups (vs.filter (fun v => decide (dbv < v) && decide (v ≤ t))))) := by
  rw [dbUpgrade, if_neg (by simp [migExists_logMig hmem]), sortAsc_logMig vs hs]
  exact upgradeLoop_logMig_str dbv t ht vs hs (Option.some dbv) s0

theorem dbDowngrade_clean_logMig_str (dbv t : String) (vs : List String)
    (hs : vs.Pairwise (· > ·)) (hok : t = "0" ∨ t ∈ vs) (s0 : List Ev) :
    dbDowngrade (cleanConn (Option.some dbv) s0) (vs.map logMig) (.str t) =
      .ok (cleanConn (downMarker vs dbv t (Option.some dbv))
        (s0 ++ downs (vs.filter (fun v => decide (v ≤ dbv) && decide (t < v))))) := by
  rw [dbDowngrade, if_neg, sortDesc_logMig vs hs]
  · exact downgradeLoop_logMig dbv t vs hs (Option.some dbv) s0
  · rcases hok with h0 | hmem
    · subst h0
      simp [pyEq]
    · simp [migExists_logMig hmem]

theorem lastSeg_no_dot {s : List Char} (h : '.' ∉ s) : lastSeg s = s := by
  induction s with
  | nil => rfl
  | cons c cs ih =>
    have hc : ¬(c = '.') := fun hcc => h (hcc ▸ List.mem_cons_self c cs)
    have hcs : '.' ∉ cs := fun hm => h (List.mem_cons_of_mem c hm)
    rw [lastSeg, if_neg hcs, if_neg hc]

theorem lastSeg_append_dot (pre s : List Char) : lastSeg (pre ++ '.' :: s) = lastSeg s := by
  induction pre with
  | nil =>
    simp only [List.nil_append]
    rw [lastSeg]
    by_cases hm : '.' ∈ s
    · rw [if_pos hm]
    · rw [if_neg hm, if_pos rfl, lastSeg_no_dot hm]
  | cons c pre ih =>
    have hm : '.' ∈ pre ++ '.' :: s := List.mem_append.mpr (Or.inr (List.mem_cons_self _ _))
    rw [List.cons_append, lastSeg, if_pos hm, ih]

theorem take_len_append {α : Type} (d rest : List α) : (d ++ rest).take d.length = d := by
  induction d with
  | nil => rfl
  | cons x xs ih => rw [List.cons_append, List.length_cons, List.take_succ_cons, ih]

theorem drop_len_append {α : Type} (d rest : List α) : (d ++ rest).drop d.length = rest := by
  induction d with
  | nil => rfl
  | cons x xs ih => rw [List.cons_append, List.length_cons, List.drop_succ_cons, ih]

theorem digit_not_marker {c : Char} (h : c.isDigit = true) : ¬(c = 'v' ∨ c = 'V') := by
  rintro (rfl | rfl) <;> exact absurd h (by decide)

theorem parse_of_core {s : List Char} {d rest : List Char}
    (hcore : parseCore (lastSeg s) = d ++ rest) (hd14 : d.length = 14)
    (hdig : ∀ ch ∈ d, ch.isDigit = true) :
    parseMigrationName s = (Option.some d, Option.some (stripUnderscores rest)) := by
  have htake : (parseCore (lastSeg s)).take 14 = d := by
    rw [hcore, ← hd14, take_len_append]
  have hdrop : (parseCore (lastSeg s)).drop 14 = rest := by
    rw [hcore, ← hd14, drop_len_append]
  have hlen : 14 ≤ (parseCore (lastSeg s)).length := by
    rw [hcore, List.length_append, hd14]
    exact Nat.le_add_right 14 rest.length
  rw [parseMigrationName,
    if_pos ⟨hlen, by rw [htake]; exact List.all_eq_true.mpr hdig⟩, htake, hdrop]

theorem parseCore_digits {d rest : List Char} (hne : d ≠ [])
    (hdig : ∀ ch ∈ d, ch.isDigit = true) : parseCore (d ++ rest) = d ++ rest := by
  cases d with
  | nil => exact absurd rfl hne
  | cons c0 d2 =>
    rw [List.cons_append, parseCore,
      if_neg (digit_not_marker (hdig c0 (List.mem_cons_self c0 d2)))]

theorem parseCore_marker {mk : Char} (hmk : mk = 'v' ∨ mk = 'V') (cs : List Char) :
    parseCore (mk :: cs) = cs := by
  rw [parseCore, if_pos hmk]

/-- C6: for every identifier whose final segment consists of an optional
single leading marker character 'v' or 'V' followed by exactly 14 ASCII
digits and a remainder, the version identifier parser returns those 14
digits as the version together with the remainder with leading underscores
stripped as the name; the bare and both marker-prefixed spellings parse,
and a dotted namespace prefix before the final segment is ignored. -/
theorem parse_valid_identifier (d rest : List Char) (hd14 : d.length = 14)
    (hdig : ∀ ch ∈ d, ch.isDigit = true) (hdd : '.' ∉ d) (hdr : '.' ∉ rest) :
    parseMigrationName (d ++ rest) = (Option.some d, Option.some (stripUnderscores rest)) ∧
    parseMigrationName ('v' :: (d ++ rest)) =
      (Option.some d, Option.some (stripUnderscores rest)) ∧
    parseMigrationName ('V' :: (d ++ rest)) =
      (Option.some d, Option.some (stripUnderscores rest)) ∧
    ∀ pre : List Char,
      parseMigrationName (pre ++ '.' :: ('v' :: (d ++ rest))) =
        (Option.some d, Option.some (stripUnderscores rest)) := by
  have hne : d ≠ [] := by
    intro h
    rw [h] at hd14
    exact absurd hd14 (by decide)
  have hnodot : '.' ∉ d ++ rest := by
    intro hm
    rcases List.mem_append.mp hm with h | h
    · exact hdd h
    · exact hdr h
  have hvnodot : ∀ mk : Char, mk = 'v' ∨ mk = 'V' → '.' ∉ mk :: (d ++ rest) := by
    intro mk hmk hm
    rcases List.mem_cons.mp hm with h | h
    · rcases hmk with rfl | rfl <;> exact absurd h (by decide)
    · exact hnodot h
  refine ⟨?_, ?_, ?_, ?_⟩
  · exact parse_of_core
      (by rw [lastSeg_no_dot hnodot]; exact parseCore_digits hne hdig) hd14 hdig
  · exact parse_of_core
      (by rw [lastSeg_no_dot (hvnodot 'v' (Or.inl rfl))]
          exact parseCore_marker (Or.inl rfl) _) hd14 hdig
  · exact parse_of_core
      (by rw [lastSeg_no_dot (hvnodot 'V' (Or.inr rfl))]
          exact parseCore_marker (Or.inr rfl) _) hd14 hdig
  · intro pre
    exact parse_of_core
      (by rw [lastSeg_append_dot, lastSeg_no_dot (hvnodot 'v' (Or.inl rfl))]
          exact parseCore_marker (Or.inl rfl) _) hd14 hdig

/-- Witness for C6 at the repository's own test vector
`v20091112150200_new_style`. -/
theorem parse_valid_identifier_witness :
    parseMigrationName ('v' :: ("20091112150200".data ++ "_new_style".data)) =
      (Option.some "20091112150200".data,
        Option.some (stripUnderscores "_new_style".data)) :=
  (parse_valid_identifier "20091112150200".data "_new_style".data (by decide) (by decide)
    (by decide) (by decide)).2.1

/-- C7: the version identifier parser is pure and total — a Lean function —
and it returns the null pair exactly on the inputs whose final segment does
not decompose as an optional single 'v'/'V' marker followed by 14 ASCII
digits (in particular when the segment is too short or a character inside
the 14-character window is not a digit), never raising an exception. -/
theorem parse_null_iff_invalid (s : List Char) :
    parseMigrationName s = (Option.none, Option.none) ↔
      ¬ ∃ p d rest, (p = [] ∨ p = ['v'] ∨ p = ['V']) ∧ lastSeg s = p ++ (d ++ rest) ∧
        d.length = 14 ∧ ∀ ch ∈ d, ch.isDigit = true := by
  constructor
  · intro hnull hex
    obtain ⟨p, d, rest, hp, hseg, hd14, hdig⟩ := hex
    have hne : d ≠ [] := by
      intro h
      rw [h] at hd14
      exact absurd hd14 (by decide)
    have hcore : parseCore (lastSeg s) = d ++ rest := by
      rcases hp with rfl | rfl | rfl
      · rw [hseg, List.nil_append]
        exact parseCore_digits hne hdig
      · rw [hseg]
        exact parseCore_marker (Or.inl rfl) _
      · rw [hseg]
        exact parseCore_marker (Or.inr rfl) _
    rw [parse_of_core hcore hd14 hdig] at hnull
    simp at hnull
  · intro hnex
    by_cases hcond : 14 ≤ (parseCore (lastSeg s)).length ∧
        ((parseCore (lastSeg s)).take 14).all Char.isDigit = true
    · exfalso
      apply hnex
      obtain ⟨hlen, hall⟩ := hcond
      rcases hls : lastSeg s with _ | ⟨c, cs⟩
      · rw [hls] at hlen
        exact absurd hlen (by decide)
      · rw [hls] at hlen hall
        by_cases hc : c = 'v' ∨ c = 'V'
        · rw [parseCore_marker hc cs] at hlen hall
          refine ⟨[c], cs.take 14, cs.drop 14, ?_, ?_, ?_, List.all_eq_true.mp hall⟩
          · rcases hc with rfl | rfl
            · exact Or.inr (Or.inl rfl)
            · exact Or.inr (Or.inr rfl)
          · rw [List.take_append_drop]
            rfl
          · rw [List.length_take]
            exact Nat.min_eq_left hlen
        · have hcore : parseCore (c :: cs) = c :: cs := by
            rw [parseCore, if_neg hc]
          rw [hcore] at hlen hall
          refine ⟨[], (c :: cs).take 14, (c :: cs).drop 14, Or.inl rfl, ?_, ?_,
            List.all_eq_true.mp hall⟩
          · rw [List.nil_append, List.take_append_drop]
          · rw [List.length_take]
            exact Nat.min_eq_left hlen
    · rw [parseMigrationName, if_neg hcond]

/-- C9: requesting a downgrade against a database that lacks the version
marker table raises the NotVersionControlled fault and returns with the
connection — both its durable image and its view, hence the marker's
absence — exactly as it was. -/
theorem downgrade_unmanaged_raises {σ : Type} (c : Conn σ) (migs : List (Mig σ))
    (tgt : PyVal) (h : c.current.marker = Option.none) :
    topDowngrade c migs tgt = .error (.notVersionControlled, c) := by
  rw [topDowngrade, if_neg]
  simp [isVersionControlled, h]

/-- Witness for C9 on a fresh in-memory database. -/
theorem downgrade_unmanaged_raises_witness :
    topDowngrade (cleanConn Option.none ([] : List Ev)) [logMig "20240101000000"]
      (.str "0") = .error (.notVersionControlled, cleanConn Option.none []) :=
  downgrade_unmanaged_raises (cleanConn Option.none []) [logMig "20240101000000"]
    (.str "0") rfl

theorem downgradeLoop_int_zero {σ : Type} (dbv : String) (c : Conn σ)
    (ms : List (Mig σ)) (hex : ∃ m ∈ ms, m.version ≤ dbv) :
    downgradeLoop (.str dbv) (.int 0) c ms = .error (.typeError, c) := by
  induction ms with
  | nil =>
    obtain ⟨m, hm, _⟩ := hex
    exact absurd hm (List.not_mem_nil m)
  | cons m ms ih =>
    by_cases hgt : dbv < m.version
    · rw [downgradeLoop_skip (.str dbv) (.int 0) c m ms (by simp [pyGT, pyLT, hgt])]
      apply ih
      obtain ⟨n, hn, hle⟩ := hex
      rcases List.mem_cons.mp hn with he | hin
      · subst he
        exact absurd hle (not_le.mpr hgt)
      · exact ⟨n, hin, hle⟩
    · exact downgradeLoop_type_error (.str dbv) (.int 0) c m ms
        (by simp [pyGT, pyLT, hgt]) rfl

/-- C10: although `Database.downgrade`'s sentinel guard accepts both the
integer `0` and the string `"0"`, passing the integer `0` against a
version-controlled database in which at least one unit's version is at most
the current database version raises the string-versus-integer TypeError at
the `current_version <= target_version` comparison, before any unit's
downgrade action runs and before any write — the error carries the
connection unchanged. -/
theorem int_zero_target_type_error {σ : Type} (c : Conn σ) (migs : List (Mig σ))
    (dbv : String) (hm : c.current.marker = Option.some dbv)
    (hdesc : migs.Pairwise (fun a b => b.version ≤ a.version))
    (hex : ∃ m ∈ migs, m.version ≤ dbv) :
    dbDowngrade c migs (.int 0) = .error (.typeError, c) := by
  rw [dbDowngrade, if_neg (by simp [pyEq]), sortDesc_eq_self hdesc]
  have hrv : readVersion c = .str dbv := by simp [readVersion, hm]
  rw [hrv]
  exact downgradeLoop_int_zero dbv c migs hex

/-- Witness for C10: two units, database at the higher version. -/
theorem int_zero_target_type_error_witness :
    dbDowngrade (cleanConn (Option.some "20240102000000") ([] : List Ev))
      [logMig "20240102000000", logMig "20240101000000"] (.int 0) =
      .error (.typeError, cleanConn (Option.some "20240102000000") []) :=
  int_zero_target_type_error (cleanConn (Option.some "20240102000000") [])
    [logMig "20240102000000", logMig "20240101000000"] "20240102000000" rfl
    (by
      refine List.Pairwise.cons ?_ (List.pairwise_singleton _ _)
      intro b hb
      rw [List.mem_singleton.mp hb]
      show ("20240101000000" : String) ≤ "20240102000000"
      rw [String.le_iff_toList_le]
      decide)
    ⟨logMig "20240102000000", List.mem_cons_self _ _, le_refl _⟩

/-- Counterexample to C8 as stated: a null (`None`) downgrade target does
not mean "revert everything" — the membership assertion runs and raises the
UnknownVersion fault, because the sentinel tuple in the source is
`(0, "0")`, which does not contain `None`. -/
theorem null_target_raises_unknown :
    dbDowngrade (cleanConn (Option.some "20240101000000") ([] : List Ev))
      [logMig "20240101000000"] PyVal.none =
      .error (.unknownVersion, cleanConn (Option.some "20240101000000") []) := rfl

/-- C8 (amended): the revert-everything sentinel targets are the integer
`0` and the string `"0"` — for either of those spellings the membership
check is skipped and the UnknownVersion fault cannot arise — whereas a null
target, like any other non-sentinel target absent from the set, fails the
membership assertion and raises UnknownVersion before mutating anything. -/
theorem downgrade_sentinel_targets {σ : Type} (c : Conn σ) (migs : List (Mig σ)) :
    errOf (dbDowngrade c migs (.int 0)) ≠ Option.some Err.unknownVersion ∧
    errOf (dbDowngrade c migs (.str "0")) ≠ Option.some Err.unknownVersion ∧
    dbDowngrade c migs PyVal.none = .error (.unknownVersion, c) ∧
    ∀ t : String, t ≠ "0" → (∀ m ∈ migs, m.version ≠ t) →
      dbDowngrade c migs (.str t) = .error (.unknownVersion, c) := by
  refine ⟨?_, ?_, ?_, ?_⟩
  · rw [dbDowngrade, if_neg (by simp [pyEq])]
    exact downgradeLoop_no_unknown _ _ _ _
  · rw [dbDowngrade, if_neg (by simp [pyEq])]
    exact downgradeLoop_no_unknown _ _ _ _
  · rw [dbDowngrade, if_pos]
    constructor
    · simp [pyEq]
    · simp only [migExists, List.any_eq_false]
      intro m _
      simp [pyEq]
  · intro t ht hno
    rw [dbDowngrade, if_pos]
    constructor
    · simp [pyEq, ht]
    · exact migExists_false hno

/-- Witness for C8 (amended) at concrete inputs. -/
theorem downgrade_sentinel_targets_witness :
    errOf (dbDowngrade (cleanConn (Option.some "20240101000000") ([] : List Ev))
      [logMig "20240101000000"] (.int 0)) ≠ Option.some Err.unknownVersion ∧
    dbDowngrade (cleanConn (Option.some "20240101000000") ([] : List Ev))
      [logMig "20240101000000"] (.str "20240102000000") =
      .error (.unknownVersion, cleanConn (Option.some "20240101000000") []) :=
  ⟨(downgrade_sentinel_targets (cleanConn (Option.some "20240101000000") [])
      [logMig "20240101000000"]).1,
    (downgrade_sentinel_targets (cleanConn (Option.some "20240101000000") [])
      [logMig "20240101000000"]).2.2.2 "20240102000000" (by decide)
      (by
        intro m hm
        rw [List.mem_singleton.mp hm]
        decide)⟩

/-- Counterexample to C1 as stated: requesting an upgrade to an unknown
version on a database that is not yet version-controlled does NOT leave the
persisted version state as it was — the marker table is created and
committed (with value "0") before the UnknownVersion fault is raised. -/
theorem upgrade_unknown_target_creates_marker :
    errOf (topUpgrade (cleanConn Option.none ([] : List Ev)) [logMig "20240101000000"]
      (.str "29999999999999")) = Option.some Err.unknownVersion ∧
    (resultConn (topUpgrade (cleanConn Option.none ([] : List Ev))
      [logMig "20240101000000"] (.str "29999999999999"))).committed.marker =
      Option.some "0" := ⟨rfl, rfl⟩

/-- C1 (amended): for a non-empty non-sentinel string target that matches
no unit, `Database.upgrade` and `Database.downgrade` raise the
UnknownVersion fault with the connection untouched, before running any
migration; the module-level operations behave the same on an
already-version-controlled database, but the module-level upgrade on a
database that is not yet version-controlled first creates and commits the
version marker (value "0") and only then raises. -/
theorem unknown_target_raises_before_migrations {σ : Type} (c : Conn σ)
    (migs : List (Mig σ)) (t : String) (ht0 : t ≠ "") (ht1 : t ≠ "0")
    (hno : ∀ m ∈ migs, m.version ≠ t) :
    dbUpgrade c migs (.str t) = .error (.unknownVersion, c) ∧
    dbDowngrade c migs (.str t) = .error (.unknownVersion, c) ∧
    (c.current.marker = Option.none →
      topUpgrade c migs (.str t) = .error (.unknownVersion, initializeVersionControl c) ∧
      (initializeVersionControl c).committed.marker = Option.some "0") ∧
    (c.current.marker.isSome = true →
      topUpgrade c migs (.str t) = .error (.unknownVersion, c) ∧
      topDowngrade c migs (.str t) = .error (.unknownVersion, c)) := by
  have hup : ∀ c2 : Conn σ, dbUpgrade c2 migs (.str t) = .error (.unknownVersion, c2) := by
    intro c2
    rw [dbUpgrade, if_pos ⟨by simp [pyTruthy, ht0], migExists_false hno⟩]
  have hdown : ∀ c2 : Conn σ, dbDowngrade c2 migs (.str t) = .error (.unknownVersion, c2) := by
    intro c2
    rw [dbDowngrade, if_pos ⟨by simp [pyEq, ht1], migExists_false hno⟩]
  refine ⟨hup c, hdown c, ?_, ?_⟩
  · intro hnone
    constructor
    · rw [topUpgrade]
      simp only [isVersionControlled, hnone, Option.isSome_none, Bool.false_eq_true,
        if_false]
      exact hup _
    · rfl
  · intro hsome
    constructor
    · rw [topUpgrade]
      simp only [isVersionControlled, hsome, if_true]
      exact hup c
    · rw [topDowngrade, if_pos]
      · exact hdown c
      · simp [isVersionControlled, hsome]

/-- Witness for C1 (amended) at concrete inputs. -/
theorem unknown_target_raises_before_migrations_witness :
    dbUpgrade (cleanConn (Option.some "0") ([] : List Ev)) [logMig "20240101000000"]
      (.str "20240102000000") =
      .error (.unknownVersion, cleanConn (Option.some "0") []) :=
  (unknown_target_raises_before_migrations (cleanConn (Option.some "0") [])
    [logMig "20240101000000"] "20240102000000" (by decide) (by decide)
    (by
      intro m hm
      rw [List.mem_singleton.mp hm]
      decide)).1

theorem sortAsc_mixed (us : List String) (w : String)
    (hs : (us ++ [w]).Pairwise (· ≤ ·)) :
    sortAsc (us.map logMig ++ [failMig w]) = us.map logMig ++ [failMig w] := by
  apply sortAsc_eq_self
  have hmapv : (us.map logMig ++ [failMig w]).map (fun m => m.version) = us ++ [w] := by
    simp only [List.map_append, List.map_map, List.map_cons, List.map_nil]
    rw [show ((fun (m : Mig (List Ev)) => m.version) ∘ logMig) = id from funext fun v => rfl,
      List.map_id]
    rfl
  have h2 : ((us.map logMig ++ [failMig w]).map (fun m => m.version)).Pairwise (· ≤ ·) := by
    rw [hmapv]
    exact hs
  exact List.pairwise_map.mp h2

theorem upgradeLoop_fail_char (dbv w : String) (us : List String)
    (hall : ∀ v ∈ us ++ [w], dbv < v) (m0 : Option String) (s0 : List Ev) :
    upgradeLoop (.str dbv) PyVal.none (cleanConn m0 s0) (us.map logMig ++ [failMig w]) =
      .error (.actionFailure w,
        ⟨⟨lastMarker us m0, s0 ++ ups us⟩,
         ⟨lastMarker us m0, (s0 ++ ups us) ++ [Ev.up w]⟩⟩) := by
  induction us generalizing m0 s0 with
  | nil =>
    have hw : dbv < w := hall w (by simp)
    rw [List.map_nil, List.nil_append,
      upgradeLoop_fail (.str dbv) PyVal.none (cleanConn m0 s0) (failMig w) []
        (s0 ++ [Ev.up w]) (by simp [pyLE, failMig, not_le.mpr hw]) rfl rfl]
    simp [setSchema, cleanConn, lastMarker, ups, failMig]
  | cons v us ih =>
    have hv : dbv < v := hall v (by simp)
    rw [List.map_cons, List.cons_append,
      upgradeLoop_apply (.str dbv) PyVal.none (cleanConn m0 s0) (logMig v)
        (us.map logMig ++ [failMig w]) (s0 ++ [Ev.up v])
        (by simp [pyLE, logMig, not_le.mpr hv]) rfl rfl,
      updateVersion_clean]
    rw [show (logMig v).version = v from rfl, show pyToText (PyVal.str v) = v from rfl]
    rw [ih (fun x hx => hall x (List.mem_cons_of_mem v hx)) (Option.some v) (s0 ++ [Ev.up v])]
    simp only [lastMarker, ups, List.map_cons, List.append_assoc, List.singleton_append]

theorem sortDesc_mixed (us : List String) (w : String)
    (hs : (us ++ [w]).Pairwise (fun a b => b ≤ a)) :
    sortDesc (us.map logMig ++ [failMig w]) = us.map logMig ++ [failMig w] := by
  apply sortDesc_eq_self
  have hmapv : (us.map logMig ++ [failMig w]).map (fun m => m.version) = us ++ [w] := by
    simp only [List.map_append, List.map_map, List.map_cons, List.map_nil]
    rw [show ((fun (m : Mig (List Ev)) => m.version) ∘ logMig) = id from funext fun v => rfl,
      List.map_id]
    rfl
  have h2 : ((us.map logMig ++ [failMig w]).map (fun m => m.version)).Pairwise
      (fun a b => b ≤ a) := by
    rw [hmapv]
    exact hs
  exact List.pairwise_map.mp h2

theorem downgradeLoop_fail_char (dbv t w : String) (us : List String)
    (hall : ∀ v ∈ us ++ [w], v ≤ dbv ∧ t < v) (m0 : Option String) (s0 : List Ev) :
    downgradeLoop (.str dbv) (.str t) (cleanConn m0 s0) (us.map logMig ++ [failMig w]) =
      .error (.actionFailure w,
        ⟨⟨failDownMarker us w m0, s0 ++ downs us⟩,
         ⟨failDownMarker us w m0, (s0 ++ downs us) ++ [Ev.down w]⟩⟩) := by
  induction us generalizing m0 s0 with
  | nil =>
    obtain ⟨hwd, htw⟩ := hall w (by simp)
    rw [List.map_nil, List.nil_append,
      downgradeLoop_fail_step (.str dbv) (.str t) (cleanConn m0 s0) (failMig w) []
        (s0 ++ [Ev.down w]) (by simp [pyGT, pyLT, failMig, not_lt.mpr hwd])
        (by simp [pyLE, failMig, not_le.mpr htw]) rfl]
    simp [setSchema, cleanConn, failDownMarker, downs, failMig]
  | cons v us ih =>
    obtain ⟨hvd, htv⟩ := hall v (by simp)
    rw [List.map_cons, List.cons_append,
      downgradeLoop_apply (.str dbv) (.str t) (cleanConn m0 s0) (logMig v)
        (us.map logMig ++ [failMig w]) (s0 ++ [Ev.down v])
        (by simp [pyGT, pyLT, logMig, not_lt.mpr hvd])
        (by simp [pyLE, logMig, not_le.mpr htv]) rfl,
      updateVersion_clean]
    rw [ih (fun x hx => hall x (List.mem_cons_of_mem v hx))
      (Option.some (pyToText (nextVersionPy (us.map logMig ++ [failMig w]))))
      (s0 ++ [Ev.down v])]
    cases us with
    | nil => simp [downs, nextVersionPy, pyToText, failMig, failDownMarker]
    | cons n us2 =>
      simp [downs, nextVersionPy, pyToText, logMig, failDownMarker, List.append_assoc]

/-- Counterexample to C2 as stated: when a migration action fails, no
rollback happens before the fault reaches the caller — the failing step's
uncommitted write is still pending on the connection when the exception
propagates, so the connection's current view differs from its committed
image (a rollback would have made them equal). -/
theorem failed_action_not_rolled_back :
    errOf (dbUpgrade (cleanConn (Option.some "0") ([] : List Ev))
      [logMig "20240101000000", failMig "20240102000000"] PyVal.none) =
      Option.some (Err.actionFailure "20240102000000") ∧
    (resultConn (dbUpgrade (cleanConn (Option.some "0") ([] : List Ev))
      [logMig "20240101000000", failMig "20240102000000"] PyVal.none)).current ≠
    (resultConn (dbUpgrade (cleanConn (Option.some "0") ([] : List Ev))
      [logMig "20240101000000", failMig "20240102000000"] PyVal.none)).committed := by
  have h : dbUpgrade (cleanConn (Option.some "0") ([] : List Ev))
      [logMig "20240101000000", failMig "20240102000000"] PyVal.none =
      .error (.actionFailure "20240102000000",
        ⟨⟨lastMarker ["20240101000000"] (Option.some "0"),
            [] ++ ups ["20240101000000"]⟩,
         ⟨lastMarker ["20240101000000"] (Option.some "0"),
            ([] ++ ups ["20240101000000"]) ++ [Ev.up "20240102000000"]⟩⟩) := by
    show dbUpgrade (cleanConn (Option.some "0") ([] : List Ev))
      (List.map logMig ["20240101000000"] ++ [failMig "20240102000000"]) PyVal.none = _
    rw [dbUpgrade, if_neg (by simp [pyTruthy]),
      sortAsc_mixed ["20240101000000"] "20240102000000"
        (by
          refine List.Pairwise.cons ?_ (List.pairwise_singleton _ _)
          intro b hb
          rw [List.mem_singleton.mp hb, String.le_iff_toList_le]
          decide)]
    exact upgradeLoop_fail_char "0" "20240102000000" ["20240101000000"]
      (by
        intro v hv
        rcases List.mem_cons.mp hv with rfl | hv2
        · rw [String.lt_iff_toList_lt]
          decide
        · rw [List.mem_singleton.mp hv2, String.lt_iff_toList_lt]
          decide)
      (Option.some "0") []
  rw [h]
  exact ⟨rfl, by decide⟩

/-- C2 (amended): the migration action itself is not wrapped in a
transaction — in both directions, when the action of the failing unit
raises, the fault propagates with no rollback, leaving the failing step's
events pending (uncommitted) on the connection's current view, while the
committed image holds exactly the events of the earlier successfully
applied steps together with the last successfully recorded version (for
upgrade: the last prefix version or the starting version; for downgrade:
the failing unit's own version, which each successful step recorded as the
next unit's version, or the starting version when the first unit failed);
the pending write is never committed and is discarded when the caller
closes the connection. -/
theorem failure_keeps_prefix_committed (dbv : String) (us : List String) (w : String)
    (hs : (us ++ [w]).Pairwise (· < ·)) (hall : ∀ v ∈ us ++ [w], dbv < v) (s0 : List Ev) :
    (dbUpgrade (cleanConn (Option.some dbv) s0) (us.map logMig ++ [failMig w]) PyVal.none =
      .error (.actionFailure w,
        ⟨⟨lastMarker us (Option.some dbv), s0 ++ ups us⟩,
         ⟨lastMarker us (Option.some dbv), (s0 ++ ups us) ++ [Ev.up w]⟩⟩)) ∧
    ∀ (ds : List String) (w2 : String) (s2 : List Ev),
      (ds ++ [w2]).Pairwise (· > ·) →
      (∀ v ∈ ds ++ [w2], v ≤ dbv ∧ "0" < v) →
      dbDowngrade (cleanConn (Option.some dbv) s2) (ds.map logMig ++ [failMig w2])
          (.str "0") =
        .error (.actionFailure w2,
          ⟨⟨failDownMarker ds w2 (Option.some dbv), s2 ++ downs ds⟩,
           ⟨failDownMarker ds w2 (Option.some dbv), (s2 ++ downs ds) ++ [Ev.down w2]⟩⟩) := by
  constructor
  · rw [dbUpgrade, if_neg (by simp [pyTruthy]), sortAsc_mixed us w (hs.imp le_of_lt)]
    exact upgradeLoop_fail_char dbv w us hall (Option.some dbv) s0
  · intro ds w2 s2 hs2 hall2
    rw [dbDowngrade, if_neg (by simp [pyEq]),
      sortDesc_mixed ds w2 (hs2.imp fun h => le_of_lt h)]
    exact downgradeLoop_fail_char dbv "0" w2 ds hall2 (Option.some dbv) s2

/-- Witness for C2 (amended) at concrete inputs. -/
theorem failure_keeps_prefix_committed_witness :
    dbUpgrade (cleanConn (Option.some "0") ([] : List Ev))
      [logMig "20240101000000", failMig "20240102000000"] PyVal.none =
      .error (.actionFailure "20240102000000",
        ⟨⟨Option.some "20240101000000", [Ev.up "20240101000000"]⟩,
         ⟨Option.some "20240101000000",
            [Ev.up "20240101000000", Ev.up "20240102000000"]⟩⟩) :=
  (failure_keeps_prefix_committed "0" ["20240101000000"] "20240102000000"
    (by
      refine List.Pairwise.cons ?_ (List.pairwise_singleton _ _)
      intro b hb
      rw [List.mem_singleton.mp hb, String.lt_iff_toList_lt]
      decide)
    (by
      intro v hv
      rcases List.mem_cons.mp hv with rfl | hv2
      · rw [String.lt_iff_toList_lt]
        decide
      · rw [List.mem_singleton.mp hv2, String.lt_iff_toList_lt]
        decide)
    []).1

/-- C4: over the descending migration set, exactly the units whose version
is at most the current database version and greater than the target have
their downgrade action invoked, in strictly descending version order (the
event list and its pairwise ordering); after the walk the persisted version
is `downMarker` — the version of the unit following the last reverted one
in the descending list, or the stored integer `0` when the reverted unit
closed the list — and in particular a downgrade to target "0" from any
version of the set (or from "0") ends with persisted version "0". -/
theorem downgrade_applies_descending (vs : List String) (hdesc : vs.Pairwise (· > ·))
    (dbv t : String) (hok : t = "0" ∨ t ∈ vs) (s0 : List Ev) :
    (dbDowngrade (cleanConn (Option.some dbv) s0) (vs.map logMig) (.str t) =
      .ok (cleanConn (downMarker vs dbv t (Option.some dbv))
        (s0 ++ downs (vs.filter (fun v => decide (v ≤ dbv) && decide (t < v)))))) ∧
    ((vs.filter (fun v => decide (v ≤ dbv) && decide (t < v))).Pairwise (· > ·)) ∧
    (t = "0" → (∀ v ∈ vs, "0" < v) → (dbv = "0" ∨ dbv ∈ vs) →
      downMarker vs dbv t (Option.some dbv) = Option.some "0") := by
  refine ⟨dbDowngrade_clean_logMig_str dbv t vs hdesc hok s0, hdesc.filter _, ?_⟩
  rintro rfl hv0 hd
  have hC : vs.filter (fun v => decide (v ≤ "0")) = [] := by
    rw [List.filter_eq_nil_iff]
    intro w hw
    simp [not_le.mpr (hv0 w hw)]
  rcases hd with rfl | hmem
  · have hB : vs.filter (fun v => decide (v ≤ "0") && decide ("0" < v)) = [] := by
      rw [List.filter_eq_nil_iff]
      intro w hw
      simp [not_le.mpr (hv0 w hw)]
    rw [downMarker, if_pos hB]
  · have hB : dbv ∈ vs.filter (fun v => decide (v ≤ dbv) && decide ("0" < v)) :=
      List.mem_filter.mpr ⟨hmem, by simp [le_refl, hv0 dbv hmem]⟩
    rw [downMarker, if_neg (List.ne_nil_of_mem hB), hC]
    rfl

/-- Witness for C4: downgrading a two-unit set to "0" from the higher
version reverts both units in descending order and persists "0". -/
theorem downgrade_applies_descending_witness :
    dbDowngrade (cleanConn (Option.some "20240102000000") ([] : List Ev))
      [logMig "20240102000000", logMig "20240101000000"] (.str "0") =
      .ok (cleanConn (Option.some "0")
        [Ev.down "20240102000000", Ev.down "20240101000000"]) := by
  have hlt01 : ("0" : String) < "20240101000000" := by
    rw [String.lt_iff_toList_lt]
    decide
  have hlt02 : ("0" : String) < "20240102000000" := by
    rw [String.lt_iff_toList_lt]
    decide
  have hlt12 : ("20240101000000" : String) < "20240102000000" := by
    rw [String.lt_iff_toList_lt]
    decide
  have h := (downgrade_applies_descending ["20240102000000", "20240101000000"]
    (by
      refine List.Pairwise.cons ?_ (List.pairwise_singleton _ _)
      intro b hb
      rw [List.mem_singleton.mp hb]
      exact hlt12)
    "20240102000000" "0" (Or.inl rfl) []).1
  have hfB : ["20240102000000", "20240101000000"].filter
      (fun v => decide (v ≤ "20240102000000") && decide ("0" < v)) =
      ["20240102000000", "20240101000000"] := by
    rw [List.filter_cons, if_pos (by simp [le_refl, hlt02]),
      List.filter_cons, if_pos (by simp [le_of_lt hlt12, hlt01]), List.filter_nil]
  have hfC : ["20240102000000", "20240101000000"].filter
      (fun v => decide (v ≤ "0")) = [] := by
    rw [List.filter_cons, if_neg (by simp [not_le.mpr hlt02]),
      List.filter_cons, if_neg (by simp [not_le.mpr hlt01]), List.filter_nil]
  rw [downMarker, hfB, hfC, if_neg (by simp)] at h
  simpa [downs] using h

/-- C3: over a set with strictly increasing versions, an upgrade with no
target applies exactly the units whose version exceeds the starting
database version, in ascending order (the committed event list), and ends
with the persisted version equal to the set's maximum version; with a
target from the set above the starting version, it applies exactly the
units in the half-open interval up to the target and ends at the target —
the highest applied version that is at most the target.  The starting
version is "0" or a version of the set, per the data model of the version
marker. -/
theorem upgrade_reaches_target (vs : List String) (hs : vs.Pairwise (· < ·)) (hne : vs ≠ [])
    (dbv : String) (hd : dbv = "0" ∨ dbv ∈ vs) (hv0 : ∀ v ∈ vs, "0" < v) (s0 : List Ev) :
    (∃ c, dbUpgrade (cleanConn (Option.some dbv) s0) (vs.map logMig) PyVal.none = .ok c ∧
      c.committed.marker = Option.some (vs.getLastD "") ∧
      c.committed.schema = s0 ++ ups (vs.filter (fun v => decide (dbv < v))) ∧
      c.current = c.committed) ∧
    (∀ t ∈ vs, dbv < t →
      ∃ c, dbUpgrade (cleanConn (Option.some dbv) s0) (vs.map logMig) (.str t) = .ok c ∧
        c.committed.marker = Option.some t ∧
        c.committed.schema =
          s0 ++ ups (vs.filter (fun v => decide (dbv < v) && decide (v ≤ t))) ∧
        c.current = c.committed) := by
  constructor
  · refine ⟨_, dbUpgrade_clean_logMig_none dbv vs hs s0, ?_, rfl, rfl⟩
    have hdle : dbv ≤ vs.getLastD "" := by
      rcases hd with rfl | hmem
      · exact le_of_lt (hv0 _ (getLastD_mem "" hne))
      · exact mem_le_getLastD "" hs dbv hmem
    rcases eq_or_lt_of_le hdle with heq | hlt
    · have hf : vs.filter (fun v => decide (dbv < v)) = [] := by
        rw [List.filter_eq_nil_iff]
        intro w hw
        simp [not_lt.mpr ((mem_le_getLastD "" hs w hw).trans_eq heq.symm)]
      rw [hf, lastMarker, heq]
      rfl
    · obtain ⟨hne2, heq2⟩ := filter_lt_getLast hs hne hlt
      rw [lastMarker_ne_nil _ _ hne2, heq2]
      rfl
  · intro t htmem hdt
    have htne : t ≠ "" := by
      intro hemp
      have h0 := hv0 t htmem
      rw [hemp, String.lt_iff_toList_lt] at h0
      exact absurd h0 (by decide)
    refine ⟨_, dbUpgrade_clean_logMig_str dbv t htne vs hs htmem s0, ?_, rfl, rfl⟩
    obtain ⟨hne2, heq2⟩ := filter_upto_target hs htmem hdt
    rw [lastMarker_ne_nil _ _ hne2, heq2]
    rfl

/-- Witness for C3: a full no-target upgrade of a two-unit set from "0"
applies both units in ascending order and ends at the maximum version. -/
theorem upgrade_reaches_target_witness :
    dbUpgrade (cleanConn (Option.some "0") ([] : List Ev))
      [logMig "20240101000000", logMig "20240102000000"] PyVal.none =
      .ok (cleanConn (Option.some "20240102000000")
        [Ev.up "20240101000000", Ev.up "20240102000000"]) := by
  have hlt1 : ("0" : String) < "20240101000000" := by
    rw [String.lt_iff_toList_lt]
    decide
  have hlt2 : ("0" : String) < "20240102000000" := by
    rw [String.lt_iff_toList_lt]
    decide
  have hlt12 : ("20240101000000" : String) < "20240102000000" := by
    rw [String.lt_iff_toList_lt]
    decide
  obtain ⟨c, hrun, hm, hsch, hcc⟩ := (upgrade_reaches_target
    ["20240101000000", "20240102000000"]
    (by
      refine List.Pairwise.cons ?_ (List.pairwise_singleton _ _)
      intro b hb
      rw [List.mem_singleton.mp hb]
      exact hlt12)
    (by simp) "0" (Or.inl rfl)
    (by
      intro v hv
      rcases List.mem_cons.mp hv with rfl | hv2
      · exact hlt1
      · rw [List.mem_singleton.mp hv2]
        exact hlt2)
    []).1
  have hf : ["20240101000000", "20240102000000"].filter (fun v => decide ("0" < v)) =
      ["20240101000000", "20240102000000"] := by
    rw [List.filter_cons, if_pos (by simp [hlt1]),
      List.filter_cons, if_pos (by simp [hlt2]), List.filter_nil]
  rw [hf] at hsch
  obtain ⟨⟨cm, cs⟩, cur⟩ := c
  simp only at hm hsch hcc
  subst hm hsch hcc
  simpa [ups] using hrun

/-- C5: upgrade is idempotent — after a successful run from a marker state
of the data model ("0" or a set version) with a target that is a set
version or none, re-running upgrade on the same set with the same or any
lower effective target performs zero migration actions and returns the
connection unchanged: same committed events and same persisted version. -/
theorem upgrade_idempotent (vs : List String) (hs : vs.Pairwise (· < ·)) (hne : vs ≠ [])
    (dbv : String) (hv0 : ∀ v ∈ vs, "0" < v)
    (t1 t2 : Option String)
    (h1 : ∀ s, t1 = Option.some s → s ∈ vs) (h2 : ∀ s, t2 = Option.some s → s ∈ vs)
    (hle : effTarget vs t2 ≤ effTarget vs t1) (s0 : List Ev) :
    ∃ c1, dbUpgrade (cleanConn (Option.some dbv) s0) (vs.map logMig) (toPyTarget t1) =
        .ok c1 ∧
      dbUpgrade c1 (vs.map logMig) (toPyTarget t2) = .ok c1 := by
  have htne : ∀ v ∈ vs, v ≠ "" := by
    intro v hv hemp
    have h0 := hv0 v hv
    rw [hemp, String.lt_iff_toList_lt] at h0
    exact absurd h0 (by decide)
  obtain ⟨F, S1, hrun1, hbound⟩ :
      ∃ F S1, dbUpgrade (cleanConn (Option.some dbv) s0) (vs.map logMig) (toPyTarget t1) =
          .ok (cleanConn (Option.some F) S1) ∧
        ∀ v ∈ vs, v ≤ effTarget vs t1 → v ≤ F := by
    cases t1 with
    | none =>
      by_cases hfil : vs.filter (fun v => decide (dbv < v)) = []
      · refine ⟨dbv, s0, ?_, ?_⟩
        · rw [show toPyTarget Option.none = PyVal.none from rfl,
            dbUpgrade_clean_logMig_none dbv vs hs s0, hfil]
          simp [ups, lastMarker]
        · intro v hv _
          by_contra hvF
          have hmem : v ∈ vs.filter (fun v => decide (dbv < v)) :=
            List.mem_filter.mpr ⟨hv, by simp [not_le.mp hvF]⟩
          rw [hfil] at hmem
          exact absurd hmem (List.not_mem_nil v)
      · obtain ⟨w, hwf⟩ := List.exists_mem_of_ne_nil _ hfil
        obtain ⟨hwmem, hwp⟩ := List.mem_filter.mp hwf
        have hdw : dbv < w := of_decide_eq_true hwp
        have hdlast : dbv < vs.getLastD "" :=
          lt_of_lt_of_le hdw (mem_le_getLastD "" hs w hwmem)
        obtain ⟨hne2, heq2⟩ := filter_lt_getLast hs hne hdlast
        refine ⟨vs.getLastD "", s0 ++ ups (vs.filter (fun v => decide (dbv < v))), ?_, ?_⟩
        · rw [show toPyTarget Option.none = PyVal.none from rfl,
            dbUpgrade_clean_logMig_none dbv vs hs s0, lastMarker_ne_nil _ _ hne2, heq2]
        · intro v hv _
          exact mem_le_getLastD "" hs v hv
    | some t =>
      have htm : t ∈ vs := h1 t rfl
      by_cases hfil : vs.filter (fun v => decide (dbv < v) && decide (v ≤ t)) = []
      · refine ⟨dbv, s0, ?_, ?_⟩
        · rw [show toPyTarget (Option.some t) = PyVal.str t from rfl,
            dbUpgrade_clean_logMig_str dbv t (htne t htm) vs hs htm s0, hfil]
          simp [ups, lastMarker]
        · intro v hv hvt
          by_contra hvF
          have hvt2 : v ≤ t := hvt
          have hmem : v ∈ vs.filter (fun v => decide (dbv < v) && decide (v ≤ t)) :=
            List.mem_filter.mpr ⟨hv, by simp [not_le.mp hvF, hvt2]⟩
          rw [hfil] at hmem
          exact absurd hmem (List.not_mem_nil v)
      · obtain ⟨w, hwf⟩ := List.exists_mem_of_ne_nil _ hfil
        obtain ⟨hwmem, hwp⟩ := List.mem_filter.mp hwf
        have hdw : dbv < w := of_decide_eq_true (Bool.and_elim_left hwp)
        have hwt : w ≤ t := of_decide_eq_true (Bool.and_elim_right hwp)
        obtain ⟨hne2, heq2⟩ := filter_upto_target hs htm (lt_of_lt_of_le hdw hwt)
        refine ⟨t, s0 ++ ups (vs.filter (fun v => decide (dbv < v) && decide (v ≤ t))), ?_, ?_⟩
        · rw [show toPyTarget (Option.some t) = PyVal.str t from rfl,
            dbUpgrade_clean_logMig_str dbv t (htne t htm) vs hs htm s0,
            lastMarker_ne_nil _ _ hne2, heq2]
        · intro v hv hvt
          exact hvt
  refine ⟨cleanConn (Option.some F) S1, hrun1, ?_⟩
  have hbound2 : ∀ v ∈ vs, v ≤ effTarget vs t2 → v ≤ F := by
    intro v hv hvt
    exact hbound v hv (le_trans hvt hle)
  cases t2 with
  | none =>
    have hfil2 : vs.filter (fun v => decide (F < v)) = [] := by
      rw [List.filter_eq_nil_iff]
      intro w hw
      simp [not_lt.mpr (hbound2 w hw (mem_le_getLastD "" hs w hw))]
    rw [show toPyTarget Option.none = PyVal.none from rfl,
      dbUpgrade_clean_logMig_none F vs hs S1, hfil2]
    simp [lastMarker, ups]
  | some t2v =>
    have ht2m : t2v ∈ vs := h2 t2v rfl
    have hfil2 : vs.filter (fun v => decide (F < v) && decide (v ≤ t2v)) = [] := by
      rw [List.filter_eq_nil_iff]
      intro w hw
      by_cases hwt2 : w ≤ t2v
      · simp [not_lt.mpr (hbound2 w hw hwt2)]
      · simp [hwt2]
    rw [show toPyTarget (Option.some t2v) = PyVal.str t2v from rfl,
      dbUpgrade_clean_logMig_str F t2v (htne t2v ht2m) vs hs ht2m S1, hfil2]
    simp [lastMarker, ups]

/-- Witness for C5: re-running a full upgrade of a two-unit set performs
zero actions and leaves the committed events and version unchanged. -/
theorem upgrade_idempotent_witness :
    dbUpgrade (cleanConn (Option.some "20240102000000")
        ([Ev.up "20240101000000", Ev.up "20240102000000"] : List Ev))
      (List.map logMig ["20240101000000", "20240102000000"]) (toPyTarget Option.none) =
      .ok (cleanConn (Option.some "20240102000000")
        [Ev.up "20240101000000", Ev.up "20240102000000"]) := by
  have hlt1 : ("0" : String) < "20240101000000" := by
    rw [String.lt_iff_toList_lt]
    decide
  have hlt2 : ("0" : String) < "20240102000000" := by
    rw [String.lt_iff_toList_lt]
    decide
  have hlt12 : ("20240101000000" : String) < "20240102000000" := by
    rw [String.lt_iff_toList_lt]
    decide
  have hpair : (["20240101000000", "20240102000000"] : List String).Pairwise (· < ·) := by
    refine List.Pairwise.cons ?_ (List.pairwise_singleton _ _)
    intro b hb
    rw [List.mem_singleton.mp hb]
    exact hlt12
  have hv0 : ∀ v ∈ (["20240101000000", "20240102000000"] : List String), "0" < v := by
    intro v hv
    rcases List.mem_cons.mp hv with rfl | hv2
    · exact hlt1
    · rw [List.mem_singleton.mp hv2]
      exact hlt2
  obtain ⟨c1, hA, hB⟩ := upgrade_idempotent ["20240101000000", "20240102000000"] hpair
    (by simp) "0" hv0 Option.none Option.none
    (fun s h => nomatch h) (fun s h => nomatch h) (le_refl _) []
  have hf : ["20240101000000", "20240102000000"].filter (fun v => decide ("0" < v)) =
      ["20240101000000", "20240102000000"] := by
    rw [List.filter_cons, if_pos (by simp [hlt1]),
      List.filter_cons, if_pos (by simp [hlt2]), List.filter_nil]
  have hA2 : dbUpgrade (cleanConn (Option.some "0") ([] : List Ev))
      (List.map logMig ["20240101000000", "20240102000000"]) (toPyTarget Option.none) =
      .ok (cleanConn (Option.some "20240102000000")
        [Ev.up "20240101000000", Ev.up "20240102000000"]) := by
    rw [show toPyTarget Option.none = PyVal.none from rfl,
      dbUpgrade_clean_logMig_none "0" ["20240101000000", "20240102000000"] hpair [], hf,
      lastMarker_ne_nil _ _ (by simp)]
    simp [ups, lastMarker]
  rw [hA] at hA2
  have hc1 : c1 = cleanConn (Option.some "20240102000000")
      [Ev.up "20240101000000", Ev.up "20240102000000"] := Except.ok.inj hA2
  rw [hc1] at hB
  exact hB

end Caribou
